import Mathlib

/-!
Verification of the LanguageClient-neovim protocol engine against its
natural-language specification.  The Python modules under
`rplugin/python3/LanguageClient/` (`RPC.py`, `Sign.py`, `util.py`,
`TextDocumentItem.py`, `LanguageClient.py`) and the older `LanguageClient/RPC.py`
are shallowly embedded below: pure functions become Lean functions, the
stateful RPC object becomes explicit state passing, and the side effects of
`RPC.handle` (callback invocation, condition-variable notification,
logging) are reified as an effect datatype.
-/

namespace LCNV

/-! ## Sign.py

`class Sign` holds `line`, `signname`, `bufnumber`.  `__eq__` compares the
three fields (in that order); `__hash__` is
`line ^ hash(signname) ^ hash(bufnumber)`.  Python's `hash` on `str` and on
`int` is interpreter-dependent (string hashing is even randomized per
process), so those two hashes are modelled as arbitrary parameter
functions; the xor combination is kept from the source.  `line` and
`bufnumber` are Python ints, modelled as `Int`. -/

structure Sign where
  line : Int
  signname : String
  bufnumber : Int
deriving DecidableEq, Repr

/-- `Sign.__eq__`: `self.line == other.line and self.signname == other.signname
and self.bufnumber == other.bufnumber`. -/
def signEq (a b : Sign) : Bool :=
  a.line == b.line && a.signname == b.signname && a.bufnumber == b.bufnumber

/-- `Sign.__hash__`: `self.line ^ hash(self.signname) ^ hash(self.bufnumber)`,
with the interpreter's `hash` on `str` and `int` abstracted as parameters. -/
def signHash (hashStr : String → Int) (hashInt : Int → Int) (s : Sign) : Int :=
  Int.xor (Int.xor s.line (hashStr s.signname)) (hashInt s.bufnumber)

theorem signEq_iff (a b : Sign) : signEq a b = true ↔ a = b := by
  cases a; cases b
  simp [signEq, Sign.mk.injEq, and_assoc]

/-! ## TextDocumentItem.py and LanguageClient.textDocument_didChange

`TextDocumentItem.__init__` sets `version = 1`, `dirty = True` and records
`time.time()`; wall-clock time is passed in as an abstract tick `now : Nat`.
`change` replaces the text, bumps the version via `incVersion` and returns
the new version together with a single full-text change event.
`LanguageClient.textDocument_didChange` returns early (sending nothing)
when the current buffer text equals the stored text; otherwise it calls
`doc.change`, sends a `textDocument/didChange` notification carrying the
new version and the change list, and calls `doc.commit_change()`. -/

structure TextDocumentItem where
  uri : String
  languageId : String
  version : Int
  text : String
  last_update : Nat
  dirty : Bool
deriving DecidableEq, Repr

namespace TextDocumentItem

/-- `TextDocumentItem.__init__(uri, languageId, text)`. -/
def init (uri languageId text : String) (now : Nat) : TextDocumentItem :=
  { uri := uri, languageId := languageId, version := 1, text := text,
    last_update := now, dirty := true }

/-- `incVersion`: `self.version += 1; return self.version`. -/
def incVersion (d : TextDocumentItem) : Int × TextDocumentItem :=
  let d' := { d with version := d.version + 1 }
  (d'.version, d')

/-- A single element of the `contentChanges` list: `{"text": newText}`. -/
structure ChangeEvent where
  text : String
deriving DecidableEq, Repr

/-- `change(newText)`: builds `changes = [{"text": newText}]`, sets
`self.text = newText`, and returns `(self.incVersion(), changes)`. -/
def change (d : TextDocumentItem) (newText : String) :
    (Int × List ChangeEvent) × TextDocumentItem :=
  let changes : List ChangeEvent := [{ text := newText }]
  let d' := { d with text := newText }
  let (v, d'') := d'.incVersion
  ((v, changes), d'')

/-- `commit_change`: `self.dirty = False`. -/
def commit_change (d : TextDocumentItem) : TextDocumentItem :=
  { d with dirty := false }

end TextDocumentItem

/-- The body of the `textDocument/didChange` notification:
`{"textDocument": {"uri": uri, "version": version}, "contentChanges": changes}`. -/
structure DidChangeParams where
  uri : String
  version : Int
  contentChanges : List TextDocumentItem.ChangeEvent
deriving DecidableEq, Repr

/-- `LanguageClient.textDocument_didChange`, from the point where the open
document and the current buffer text are in hand: if `new_text == doc.text`
return without sending; else `version, changes = doc.change(new_text)`,
notify the server, then `doc.commit_change()`. -/
def textDocument_didChange (doc : TextDocumentItem) (new_text : String) :
    TextDocumentItem × Option DidChangeParams :=
  if new_text = doc.text then
    (doc, none)
  else
    let ((version, changes), doc') := doc.change new_text
    let notif : DidChangeParams :=
      { uri := doc'.uri, version := version, contentChanges := changes }
    (doc'.commit_change, some notif)

/-! ## JSON values

Parsed JSON payloads (`params`, `result`, `error` fields and whole
envelopes).  Python's parsed representation maps JSON null to `None`;
`Json.null` plays that role, so the `RPC` result slot below can reuse it as
the "empty" marker exactly as `RPC.py` reuses Python `None`.  The mutual
shape (rather than `List` nesting) keeps recursion structural. -/

mutual
inductive Json where
  | obj (entries : JsonObj) : Json
  | arr (items : JsonList) : Json
  | str (text : String) : Json
  | num (value : Int) : Json
  | bool (flag : Bool) : Json
  | null : Json
deriving DecidableEq, Repr

inductive JsonList where
  | nil : JsonList
  | cons (hd : Json) (tl : JsonList) : JsonList
deriving DecidableEq, Repr

inductive JsonObj where
  | nil : JsonObj
  | cons (key : String) (val : Json) (tl : JsonObj) : JsonObj
deriving DecidableEq, Repr
end

/-! ## RPC.py (rplugin version)

State of one `RPC` instance: `mid` counter, the `queue` dict mapping ids of
callback-style calls to their callback pair, and the shared sync-call slot
`self.result` (initially `None`; JSON null doubles as Python `None`, as in
the source).  The callback pair `cbs` is an opaque value of a parameter
type `CB`.  `handle`'s observable actions (invoking `cbs[0]`/`cbs[1]`,
setting the slot and `cv.notify()`, routing to `onRequest`/`onNotification`,
logging) are returned as a `HandleEffect`. -/

/-- The wire-level `id` field: a JSON int, or a decimal string
(`RPC.handle` applies `int(...)` to string ids; `WireId.str n` stands for
the decimal string denoting `n`). -/
inductive WireId where
  | int (n : Nat) : WireId
  | str (n : Nat) : WireId
deriving DecidableEq, Repr

/-- `if isinstance(mid, str): mid = int(mid)`. -/
def WireId.coerce : WireId → Nat
  | .int n => n
  | .str n => n

/-- A parsed incoming message, with presence/absence of the JSON-RPC keys
made explicit (`"result" in message` is `(result).isSome`, etc.). -/
structure WireMsg where
  result : Option Json := none
  error : Option Json := none
  method : Option String := none
  id : Option WireId := none
  params : Option Json := none
deriving DecidableEq, Repr

structure RPCState (CB : Type) where
  mid : Nat
  queue : List (Nat × CB)
  result : Json
deriving DecidableEq, Repr

/-- `RPC.__init__`: `self.mid = 0`, `self.queue = {}`, `self.result = None`. -/
def RPCState.init (CB : Type) : RPCState CB :=
  { mid := 0, queue := [], result := Json.null }

/-- Dict membership `mid in self.queue`. -/
def qMem {CB : Type} (q : List (Nat × CB)) (k : Nat) : Bool :=
  q.any (fun p => p.1 == k)

/-- Dict lookup `self.queue[mid]`. -/
def qGet {CB : Type} (q : List (Nat × CB)) (k : Nat) : Option CB :=
  (q.find? (fun p => p.1 == k)).map Prod.snd

/-- Dict assignment `self.queue[mid] = cbs` (replace or append, preserving
insertion order as Python dicts do). -/
def qSet {CB : Type} (q : List (Nat × CB)) (k : Nat) (v : CB) : List (Nat × CB) :=
  if qMem q k then q.map (fun p => if p.1 == k then (k, v) else p) else q ++ [(k, v)]

/-- `del self.queue[mid]`. -/
def qDel {CB : Type} (q : List (Nat × CB)) (k : Nat) : List (Nat × CB) :=
  q.filter (fun p => !(p.1 == k))

/-- `incMid`: returns the current `mid` and the state with `mid` bumped. -/
def RPCState.incMid {CB : Type} (s : RPCState CB) : Nat × RPCState CB :=
  (s.mid, { s with mid := s.mid + 1 })

/-- The `contentDict` built by `RPC.call`:
`{"jsonrpc": "2.0", "id": mid, "method": method, "params": params}`. -/
def callContentDict (mid : Nat) (method : String) (params : Json) : Json :=
  Json.obj (.cons "jsonrpc" (Json.str "2.0")
    (.cons "id" (Json.num mid)
      (.cons "method" (Json.str method)
        (.cons "params" params .nil))))

/-- The `contentDict` built by `RPC.notify` (no `"id"` entry). -/
def notifyContentDict (method : String) (params : Json) : Json :=
  Json.obj (.cons "jsonrpc" (Json.str "2.0")
    (.cons "method" (Json.str method)
      (.cons "params" params .nil)))

/-- `RPC.call` up to the blocking wait: allocates `mid` with `incMid`,
registers `cbs` in `queue` only when `cbs is not None`, and emits the
request envelope via `message`.  Returns the allocated id and the payload
passed to `message`. -/
def RPC.call {CB : Type} (s : RPCState CB) (method : String) (params : Json)
    (cbs : Option CB) : RPCState CB × Nat × Json :=
  let (mid, s₁) := s.incMid
  let s₂ := match cbs with
    | some c => { s₁ with queue := qSet s₁.queue mid c }
    | none => s₁
  (s₂, mid, callContentDict mid method params)

/-- The tail of a blocking `RPC.call` after `cv.wait_for` returns: if the
slot is still `None` the wait timed out and the call returns `None`;
otherwise the caller takes the slot's value and resets the slot to `None`.
(Which of the blocked callers runs this step is the scheduler's choice;
nothing in the state ties the slot to a request id.) -/
def RPC.syncFinish {CB : Type} (s : RPCState CB) : Option Json × RPCState CB :=
  if s.result = Json.null then
    (none, s)
  else
    (some s.result, { s with result := Json.null })

/-- What one `RPC.handle` invocation did, beyond updating the state. -/
inductive HandleEffect (CB : Type) where
  /-- `message["id"]` raised `KeyError` (response with no id). -/
  | keyError : HandleEffect CB
  /-- async path, result: `cbs[0](message["result"])`. -/
  | calledResultCb (cbs : CB) (res : Json) : HandleEffect CB
  /-- async path, error: `logger.error(...)` then `cbs[1](message["error"])`. -/
  | calledErrorCb (cbs : CB) (err : Json) : HandleEffect CB
  /-- sync path, result: slot set to the result, `cv.notify()`. -/
  | syncSetResult (res : Json) : HandleEffect CB
  /-- sync path, error: `logger.error(...)`, slot set to `[]`, `cv.notify()`. -/
  | syncErrorLogged (err : Json) : HandleEffect CB
  /-- `self.onRequest(message)`. -/
  | onRequest (m : WireMsg) : HandleEffect CB
  /-- `self.onNotification(message)`. -/
  | onNotification (m : WireMsg) : HandleEffect CB
  /-- `logger.error('Unknown message.')`. -/
  | unknownMessage : HandleEffect CB
deriving DecidableEq, Repr

/-- `RPC.handle`, transcribed branch by branch. -/
def RPC.handle {CB : Type} (s : RPCState CB) (m : WireMsg) :
    RPCState CB × HandleEffect CB :=
  if m.result.isSome || m.error.isSome then
    match m.id with
    | none => (s, .keyError)
    | some wid =>
      let mid := wid.coerce
      match qGet s.queue mid with
      | some cbs =>
        let s' := { s with queue := qDel s.queue mid }
        match m.result with
        | some r => (s', .calledResultCb cbs r)
        | none => (s', .calledErrorCb cbs (m.error.getD Json.null))
      | none =>
        match m.result with
        | some r => ({ s with result := r }, .syncSetResult r)
        | none =>
          ({ s with result := Json.arr .nil },
            .syncErrorLogged (m.error.getD Json.null))
  else if m.method.isSome then
    if m.id.isSome then (s, .onRequest m) else (s, .onNotification m)
  else
    (s, .unknownMessage)

/-- A `Response` envelope carrying a `result`. -/
def resultMsg (mid : Nat) (r : Json) : WireMsg :=
  { result := some r, id := some (.int mid) }

/-- A `Response` envelope carrying an `error`. -/
def errorMsg (mid : Nat) (e : Json) : WireMsg :=
  { error := some e, id := some (.int mid) }

/-! ### Sequences of client-side invocations (for the id-allocation claims)

One `Op` is one public invocation on the `RPC` instance; `exec` runs a list
of them, collecting the ids handed out by `incMid` in issue order.
`notify` never touches `mid` or `queue`; `handleMsg` models the reader
thread delivering a message. -/

inductive Op (CB : Type) where
  | callAsync (method : String) (params : Json) (cbs : CB) : Op CB
  | callBlocking (method : String) (params : Json) : Op CB
  | notify (method : String) (params : Json) : Op CB
  | handleMsg (m : WireMsg) : Op CB

def Op.run {CB : Type} (s : RPCState CB) : Op CB → RPCState CB × Option Nat
  | .callAsync method params cbs =>
    let (s', mid, _) := RPC.call s method params (some cbs)
    (s', some mid)
  | .callBlocking method params =>
    let (s', mid, _) := RPC.call s method params none
    (s', some mid)
  | .notify _ _ => (s, none)
  | .handleMsg m => ((RPC.handle s m).1, none)

/-- Run a sequence of invocations from `s`, returning the final state and
the ids allocated by `incMid`, in order of issue. -/
def execOps {CB : Type} (s : RPCState CB) : List (Op CB) → RPCState CB × List Nat
  | [] => (s, [])
  | op :: ops =>
    let (s', alloc) := op.run s
    let (s'', ids) := execOps s' ops
    (s'', (alloc.toList) ++ ids)

/-! ## LanguageClient.handle_request_and_notify

`RPC` is constructed with `onRequest = self.handle_request_and_notify`, so
every server-initiated `Request` envelope lands here.  The method name has
`/` replaced by `_` and is looked up with `hasattr(self, method)`; the set
of attributes of the `LanguageClient` instance is abstracted as a predicate
`hasattr : String → Bool`.  On a hit the handler is scheduled through
`nvim.async_call`; on a miss the function only logs
`"no handler implemented for " + method`.  No branch writes anything back
to the server, which is what `HRNEffect` makes visible. -/

/-- `message["method"].replace("/", "_")` (single-character pattern, so a
character map is exact). -/
def replaceSlashUnderscore (s : String) : String :=
  String.mk (s.data.map (fun c => if c = '/' then '_' else c))

inductive HRNEffect where
  /-- `state["nvim"].async_call(getattr(self, method), message.get("params"))`. -/
  | asyncCall (method : String) (params : Option Json) : HRNEffect
  /-- `logger.warn("no handler implemented for " + method)`. -/
  | warnNoHandler (msg : String) : HRNEffect
  /-- `message["method"]` raised `KeyError`. -/
  | keyError : HRNEffect
deriving DecidableEq, Repr

def handle_request_and_notify (hasattr : String → Bool) (m : WireMsg) : HRNEffect :=
  match m.method with
  | none => .keyError
  | some name =>
    let method := replaceSlashUnderscore name
    if hasattr method then
      .asyncCall method m.params
    else
      .warnNoHandler ("no handler implemented for " ++ method)

/-! ## json.dumps and the wire framer

`RPC.message` (rplugin version) does
`content = json.dumps(contentDict, separators=(',', ':'))` and emits
`"Content-Length: {}\r\n\r\n{}".format(len(content.encode('utf-8')), content)`.
The older `LanguageClient/RPC.py` does `content = json.dumps(content)`
(default separators `', '` / `': '`) and emits the same header shape with
`len(content)` — the character count.

Python strings are sequences of code points, modelled as `List Char`;
`len(s)` is `List.length` and `len(s.encode('utf-8'))` is `pyUtf8Len`.
`json.dumps` runs with its default `ensure_ascii=True`, so every code
point outside `0x20..0x7e` (plus `"` and `\`) is escaped; the escaping
below transcribes CPython's `py_encode_basestring_ascii`. -/

/-- Byte count of the UTF-8 encoding of one code point. -/
def charUtf8Len (c : Char) : Nat :=
  if c.toNat < 0x80 then 1
  else if c.toNat < 0x800 then 2
  else if c.toNat < 0x10000 then 3
  else 4

/-- `len(s.encode('utf-8'))`. -/
def pyUtf8Len (s : List Char) : Nat :=
  (s.map charUtf8Len).sum

/-- The sixteen lowercase hex digits. -/
def hexDigits : List Char :=
  "01234567".data ++ "89abcdef".data

/-- Lowercase hex digit, as produced by `'\\u%04x' % n` (always called with
`n < 16`). -/
def hexDigitChar (n : Nat) : Char := hexDigits.getD n '0'

/-- The four hex digits of `'\\u%04x' % n` for `n < 0x10000`. -/
def hex4 (n : Nat) : List Char :=
  [hexDigitChar (n / 4096 % 16), hexDigitChar (n / 256 % 16),
   hexDigitChar (n / 16 % 16), hexDigitChar (n % 16)]

/-- One code point under `ensure_ascii` escaping: the regex
`([\\"]|[^\ -~])` picks out backslash, quote and everything outside
`0x20..0x7e`; `ESCAPE_DCT` supplies the two-character escapes, other
basic-plane code points become `\uXXXX`, astral ones a surrogate pair. -/
def escapeCharAscii (c : Char) : List Char :=
  if c = '\\' then ['\\', '\\']
  else if c = '"' then ['\\', '"']
  else if c.toNat = 0x08 then ['\\', 'b']
  else if c.toNat = 0x0c then ['\\', 'f']
  else if c = '\n' then ['\\', 'n']
  else if c = '\r' then ['\\', 'r']
  else if c = '\t' then ['\\', 't']
  else if 0x20 ≤ c.toNat ∧ c.toNat ≤ 0x7e then [c]
  else if c.toNat < 0x10000 then '\\' :: 'u' :: hex4 c.toNat
  else
    let v := c.toNat - 0x10000
    ('\\' :: 'u' :: hex4 (0xd800 + v / 1024)) ++ ('\\' :: 'u' :: hex4 (0xdc00 + v % 1024))

/-- `py_encode_basestring_ascii`: escape each code point and wrap in
double quotes. -/
def encodeBasestringAscii (s : List Char) : List Char :=
  '"' :: (s.flatMap escapeCharAscii) ++ ['"']

/-- Decimal digits of `n`, most significant first (`str` on a
non-negative int); the first argument is recursion fuel, `n` itself is
always enough. -/
def natCharsAux : Nat → Nat → List Char
  | 0, n => [hexDigitChar (n % 10)]
  | fuel + 1, n =>
    if n < 10 then [hexDigitChar n]
    else natCharsAux fuel (n / 10) ++ [hexDigitChar (n % 10)]

def natChars (n : Nat) : List Char :=
  natCharsAux n n

/-- `str` on a Python int. -/
def intChars (n : Int) : List Char :=
  if n < 0 then '-' :: natChars n.natAbs else natChars n.natAbs

/-! `json.dumps` with separator arguments `(item_separator, key_separator)`:
the rplugin framer passes `(',', ':')`, the old framer uses the defaults
`(', ', ': ')`. -/

mutual
def dumpsVal (isep ksep : List Char) : Json → List Char
  | .null => "null".data
  | .bool true => "true".data
  | .bool false => "false".data
  | .num n => intChars n
  | .str s => encodeBasestringAscii s.data
  | .arr xs => '[' :: dumpsArr isep ksep xs ++ [']']
  | .obj fs => '\x7b' :: dumpsFields isep ksep fs ++ ['\x7d']

def dumpsArr (isep ksep : List Char) : JsonList → List Char
  | .nil => []
  | .cons x .nil => dumpsVal isep ksep x
  | .cons x (.cons y tl) =>
    dumpsVal isep ksep x ++ isep ++ dumpsArr isep ksep (.cons y tl)

def dumpsFields (isep ksep : List Char) : JsonObj → List Char
  | .nil => []
  | .cons k v .nil => encodeBasestringAscii k.data ++ ksep ++ dumpsVal isep ksep v
  | .cons k v (.cons k' v' tl) =>
    encodeBasestringAscii k.data ++ ksep ++ dumpsVal isep ksep v ++ isep ++
      dumpsFields isep ksep (.cons k' v' tl)
end

/-- `json.dumps(d, separators=(',', ':'))` — the rplugin `RPC.message`
serialization. -/
def dumpsCompact (d : Json) : List Char :=
  dumpsVal [','] [':'] d

/-- `json.dumps(d)` with default separators — the old `RPC.call`
serialization. -/
def dumpsDefault (d : Json) : List Char :=
  dumpsVal [',', ' '] [':', ' '] d

/-- The `Content-Length` value the rplugin `RPC.message` puts in the
header: `len(content.encode('utf-8'))`. -/
def messageContentLength (d : Json) : Nat :=
  pyUtf8Len (dumpsCompact d)

/-- The full frame string built by the rplugin `RPC.message` (its UTF-8
encoding is what gets written). -/
def messageFrame (d : Json) : List Char :=
  "Content-Length: ".data ++ natChars (messageContentLength d) ++
    "\r\n\r\n".data ++ dumpsCompact d

/-- The `Content-Length` value the old `RPC.call` puts in the header:
`len(content)`, the character count. -/
def oldCallContentLength (d : Json) : Nat :=
  (dumpsDefault d).length

/-- The full frame string built by the old `RPC.call`. -/
def oldCallFrame (d : Json) : List Char :=
  "Content-Length: ".data ++ natChars (oldCallContentLength d) ++
    "\r\n\r\n".data ++ dumpsDefault d

/-- All code points of `s` are ASCII. -/
def AllAscii (s : List Char) : Prop :=
  ∀ c ∈ s, c.toNat < 0x80

/-! ## util.get_command_update_signs and difflib.SequenceMatcher

`get_command_update_signs(signs, next_signs)` walks
`difflib.SequenceMatcher(None, signs, next_signs).get_opcodes()` and turns
`delete`/`insert`/`replace` ranges into vim `sign unplace` / `sign place`
command fragments appended to an initial `"echo"`.

The relevant parts of CPython's `difflib` (`__chain_b`,
`find_longest_match`, `get_matching_blocks`, `get_opcodes`) are embedded
below for `isjunk=None` (so `bjunk` is empty — kept as the constant-false
predicate `bjunkNone` in the loop conditions) and the default
`autojunk=True` (elements of `b` occurring more than `len(b)//100 + 1`
times are dropped from `b2j` when `len(b) >= 200`).  Python dicts keyed by
`Sign` use `__hash__`/`__eq__`, so `b2j.get(x)` returns the ascending list
of positions of elements equal to `x`.  The two unbounded `while` loops
that extend the best match are given explicit fuel; the fuel passed at
each call site (`besti` for the downward loops, `ahi - (besti + bestsize)`
for the upward ones) dominates the number of iterations the Python loop
can perform, since each iteration decrements `besti` (resp. increments
`bestsize` while `besti + bestsize < ahi`). -/

/-- Placeholder for in-range list indexing (never observable: every index
used below is within bounds). -/
def sign0 : Sign := { line := 0, signname := "", bufnumber := 0 }

/-- Ascending list of indices of elements of `b` equal to `e` — the value
of `b2j[e]` before junk/popular purging. -/
def positions (b : List Sign) (e : Sign) : List Nat :=
  (List.range b.length).filter (fun j => signEq (b.getD j sign0) e)

/-- The `autojunk` "popular" test from `__chain_b`:
`n >= 200 and len(idxs) > n // 100 + 1`. -/
def isPopular (b : List Sign) (e : Sign) : Bool :=
  200 ≤ b.length && b.length / 100 + 1 < (positions b e).length

/-- `self.b2j.get(a_elt, nothing)` after `__chain_b` purged popular
elements. -/
def b2jGet (b : List Sign) (e : Sign) : List Nat :=
  if isPopular b e then [] else positions b e

/-- `self.bjunk.__contains__` for `isjunk=None`. -/
def bjunkNone : Sign → Bool := fun _ => false

structure BestMatch where
  besti : Nat
  bestj : Nat
  bestsize : Nat
deriving DecidableEq, Repr

/-- The inner loop of `find_longest_match`:
`for j in b2j.get(a[i], nothing)` with its `continue`/`break` guards,
writing `newj2len[j] = j2len.get(j-1, 0) + 1` and updating the running
best.  (`j2len.get(-1, 0)` is `0`, hence the `j = 0` guard.) -/
def innerLoop (blo bhi i : Nat) (j2lenOld : Nat → Nat) :
    List Nat → (Nat → Nat) → BestMatch → (Nat → Nat) × BestMatch
  | [], newj2len, best => (newj2len, best)
  | j :: js, newj2len, best =>
    if j < blo then
      innerLoop blo bhi i j2lenOld js newj2len best
    else if bhi ≤ j then
      (newj2len, best)
    else
      let k := (if j = 0 then 0 else j2lenOld (j - 1)) + 1
      let newj2len' := fun j' => if j' = j then k else newj2len j'
      -- `i-k+1`/`j-k+1` in Python ints; `k ≤ i+1` and `k ≤ j+1` always hold
      -- (a chain ending at `(i, j)` is no longer than either prefix), so the
      -- truncation-safe form `i+1-k` is the same value.
      let best' := if best.bestsize < k then ⟨i + 1 - k, j + 1 - k, k⟩ else best
      innerLoop blo bhi i j2lenOld js newj2len' best'

/-- The outer loop `for i in range(alo, ahi)` of `find_longest_match`;
`is` is the remaining range, `j2len` the dict carried across iterations. -/
def dpLoop (a b : List Sign) (blo bhi : Nat) :
    List Nat → (Nat → Nat) → BestMatch → BestMatch
  | [], _, best => best
  | i :: is, j2len, best =>
    let (newj2len, best') :=
      innerLoop blo bhi i j2len (b2jGet b (a.getD i sign0)) (fun _ => 0) best
    dpLoop a b blo bhi is newj2len best'

/-- First extension loop: extend downward over non-junk equal elements. -/
def extendLowerNonjunk (a b : List Sign) (alo blo : Nat) :
    Nat → BestMatch → BestMatch
  | 0, best => best
  | fuel + 1, best =>
    if alo < best.besti ∧ blo < best.bestj ∧
        bjunkNone (b.getD (best.bestj - 1) sign0) = false ∧
        signEq (a.getD (best.besti - 1) sign0) (b.getD (best.bestj - 1) sign0) = true then
      extendLowerNonjunk a b alo blo fuel
        ⟨best.besti - 1, best.bestj - 1, best.bestsize + 1⟩
    else best

/-- Second extension loop: extend upward over non-junk equal elements. -/
def extendUpperNonjunk (a b : List Sign) (ahi bhi : Nat) :
    Nat → BestMatch → BestMatch
  | 0, best => best
  | fuel + 1, best =>
    if best.besti + best.bestsize < ahi ∧ best.bestj + best.bestsize < bhi ∧
        bjunkNone (b.getD (best.bestj + best.bestsize) sign0) = false ∧
        signEq (a.getD (best.besti + best.bestsize) sign0)
          (b.getD (best.bestj + best.bestsize) sign0) = true then
      extendUpperNonjunk a b ahi bhi fuel
        ⟨best.besti, best.bestj, best.bestsize + 1⟩
    else best

/-- Third extension loop: extend downward over junk; with `isjunk=None`
the `isbjunk(...)` conjunct is `false`, so this never iterates. -/
def extendLowerJunk (a b : List Sign) (alo blo : Nat) :
    Nat → BestMatch → BestMatch
  | 0, best => best
  | fuel + 1, best =>
    if alo < best.besti ∧ blo < best.bestj ∧
        bjunkNone (b.getD (best.bestj - 1) sign0) = true ∧
        signEq (a.getD (best.besti - 1) sign0) (b.getD (best.bestj - 1) sign0) = true then
      extendLowerJunk a b alo blo fuel
        ⟨best.besti - 1, best.bestj - 1, best.bestsize + 1⟩
    else best

/-- Fourth extension loop: extend upward over junk; never iterates for
`isjunk=None`. -/
def extendUpperJunk (a b : List Sign) (ahi bhi : Nat) :
    Nat → BestMatch → BestMatch
  | 0, best => best
  | fuel + 1, best =>
    if best.besti + best.bestsize < ahi ∧ best.bestj + best.bestsize < bhi ∧
        bjunkNone (b.getD (best.bestj + best.bestsize) sign0) = true ∧
        signEq (a.getD (best.besti + best.bestsize) sign0)
          (b.getD (best.bestj + best.bestsize) sign0) = true then
      extendUpperJunk a b ahi bhi fuel
        ⟨best.besti, best.bestj, best.bestsize + 1⟩
    else best

/-- `SequenceMatcher.find_longest_match(alo, ahi, blo, bhi)`. -/
def findLongestMatch (a b : List Sign) (alo ahi blo bhi : Nat) : BestMatch :=
  let best0 : BestMatch := ⟨alo, blo, 0⟩
  let best1 := dpLoop a b blo bhi (List.range' alo (ahi - alo)) (fun _ => 0) best0
  let best2 := extendLowerNonjunk a b alo blo best1.besti best1
  let best3 := extendUpperNonjunk a b ahi bhi (ahi - (best2.besti + best2.bestsize)) best2
  let best4 := extendLowerJunk a b alo blo best3.besti best3
  let best5 := extendUpperJunk a b ahi bhi (ahi - (best4.besti + best4.bestsize)) best4
  best5

/-- The divide-and-conquer of `get_matching_blocks`, emitting blocks in
sorted order (the Python version collects them from a worklist and sorts;
left-subrange blocks all precede the pivot block, which precedes all
right-subrange blocks, so the in-order recursion yields the sorted list).
The worklist processing is bounded by explicit fuel; each recursive call
strictly shrinks `(ahi - alo) + (bhi - blo)`, so the fuel supplied by
`getMatchingBlocks` dominates the recursion depth. -/
def matchingBlocksAux (a b : List Sign) :
    Nat → Nat → Nat → Nat → Nat → List (Nat × Nat × Nat)
  | 0, _, _, _, _ => []
  | fuel + 1, alo, ahi, blo, bhi =>
    let m := findLongestMatch a b alo ahi blo bhi
    if m.bestsize = 0 then []
    else
      (if alo < m.besti ∧ blo < m.bestj then
        matchingBlocksAux a b fuel alo m.besti blo m.bestj
      else []) ++
      [(m.besti, m.bestj, m.bestsize)] ++
      (if m.besti + m.bestsize < ahi ∧ m.bestj + m.bestsize < bhi then
        matchingBlocksAux a b fuel (m.besti + m.bestsize) ahi (m.bestj + m.bestsize) bhi
      else [])

/-- The adjacent-block collapsing loop at the end of
`get_matching_blocks` (`i1 = j1 = k1 = 0` initially; a pending block is
emitted only if `k1` is nonzero). -/
def collapseAdjacent : List (Nat × Nat × Nat) → Nat → Nat → Nat → List (Nat × Nat × Nat)
  | [], i1, j1, k1 => if k1 ≠ 0 then [(i1, j1, k1)] else []
  | (i2, j2, k2) :: rest, i1, j1, k1 =>
    if i1 + k1 = i2 ∧ j1 + k1 = j2 then
      collapseAdjacent rest i1 j1 (k1 + k2)
    else
      (if k1 ≠ 0 then [(i1, j1, k1)] else []) ++ collapseAdjacent rest i2 j2 k2

/-- `SequenceMatcher.get_matching_blocks()`, including the final dummy
`(len(a), len(b), 0)`. -/
def getMatchingBlocks (a b : List Sign) : List (Nat × Nat × Nat) :=
  let la := a.length
  let lb := b.length
  let blocks := matchingBlocksAux a b (la + lb + 1) 0 la 0 lb
  collapseAdjacent blocks 0 0 0 ++ [(la, lb, 0)]

/-- The loop body of `get_opcodes`: tag the gap before each matching
block, then emit an `equal` opcode for the block itself when nonempty. -/
def opcodesLoop : List (Nat × Nat × Nat) → Nat → Nat →
    List (String × Nat × Nat × Nat × Nat)
  | [], _, _ => []
  | (ai, bj, size) :: rest, i, j =>
    let tagged :=
      if i < ai ∧ j < bj then [("replace", i, ai, j, bj)]
      else if i < ai then [("delete", i, ai, j, bj)]
      else if j < bj then [("insert", i, ai, j, bj)]
      else []
    let i' := ai + size
    let j' := bj + size
    tagged ++ (if size ≠ 0 then [("equal", ai, i', bj, j')] else []) ++
      opcodesLoop rest i' j'

/-- `SequenceMatcher.get_opcodes()`. -/
def getOpcodes (a b : List Sign) : List (String × Nat × Nat × Nat × Nat) :=
  opcodesLoop (getMatchingBlocks a b) 0 0

/-- `util.get_command_delete_sign`. -/
def get_command_delete_sign (s : Sign) : List Char :=
  " | execute('sign unplace ".data ++ intChars s.line ++ "')".data

/-- `util.get_command_add_sign`. -/
def get_command_add_sign (s : Sign) : List Char :=
  " | execute('sign place ".data ++ intChars s.line ++ " line=".data ++
    intChars s.line ++ " name=LanguageClient".data ++ s.signname.data ++
    " buffer=".data ++ intChars s.bufnumber ++ "')".data

/-- `for i in range(i1, i2): cmd += f(seq[i])`. -/
def sliceCommands (f : Sign → List Char) (seq : List Sign) (i1 i2 : Nat) : List Char :=
  ((List.range' i1 (i2 - i1)).map (fun i => f (seq.getD i sign0))).flatten

/-- One iteration of the opcode dispatch in `get_command_update_signs`. -/
def opcodeCommands (signs next_signs : List Sign)
    (op : String × Nat × Nat × Nat × Nat) : List Char :=
  let (tag, i1, i2, j1, j2) := op
  if tag = "replace" then
    sliceCommands get_command_delete_sign signs i1 i2 ++
      sliceCommands get_command_add_sign next_signs j1 j2
  else if tag = "delete" then
    sliceCommands get_command_delete_sign signs i1 i2
  else if tag = "insert" then
    sliceCommands get_command_add_sign next_signs j1 j2
  else
    []

/-- `util.get_command_update_signs`. -/
def get_command_update_signs (signs next_signs : List Sign) : List Char :=
  "echo".data ++
    ((getOpcodes signs next_signs).map (opcodeCommands signs next_signs)).flatten

/-! ### Proof devices for the self-comparison analysis (not from the
source): the length of the longest common, popularity-free suffix of the
prefixes of `b` ending at `i` and at `j`.  This is what `j2len` holds
during `find_longest_match(0, n, 0, n)` when the two sequences are the
same list `b`. -/

/-- The condition under which the chain through `(i, j)` extends: position
`j` is listed in `b2j[b[i]]`, i.e. `b[i]` survived the popularity purge
and `b[j] == b[i]`. -/
def chCond (b : List Sign) (i j : Nat) : Prop :=
  isPopular b (b.getD i sign0) = false ∧ b.getD j sign0 = b.getD i sign0

instance (b : List Sign) (i j : Nat) : Decidable (chCond b i j) := by
  unfold chCond; infer_instance

def selfChain (b : List Sign) : Nat → Nat → Nat
  | 0, j => if chCond b 0 j then 1 else 0
  | i + 1, 0 => if chCond b (i + 1) 0 then 1 else 0
  | i + 1, j + 1 => if chCond b (i + 1) (j + 1) then selfChain b i j + 1 else 0

/-- `j2len` as it stands when the outer loop is about to process index
`m`. -/
def prevCh (b : List Sign) : Nat → Nat → Nat
  | 0, _ => 0
  | m + 1, j => selfChain b m j

/-- The value of the running best after the inner loop has finished
processing outer index `m` in the self-comparison (proof device): the
diagonal chain ending at `m` displaces the previous best exactly when it
is strictly longer. -/
def innerBest (b : List Sign) (m : Nat) (best₀ : BestMatch) : BestMatch :=
  if best₀.bestsize < selfChain b m m then
    ⟨m + 1 - selfChain b m m, m + 1 - selfChain b m m, selfChain b m m⟩
  else best₀

/-! # Theorems -/

/-! ## Dictionary helpers -/

theorem qMem_iff_mem_keys {CB : Type} (q : List (Nat × CB)) (k : Nat) :
    qMem q k = true ↔ k ∈ q.map Prod.fst := by
  induction q with
  | nil => simp [qMem]
  | cons p rest ih =>
    simp [qMem, List.any_cons] at ih ⊢
    constructor
    · rintro (h | h)
      · exact Or.inl (by simpa using h.symm)
      · exact Or.inr (by simpa [qMem] using h)
    · rintro (h | h)
      · exact Or.inl (by simpa using h.symm)
      · exact Or.inr (by simpa [qMem] using h)

theorem qGet_eq_none_of_not_mem {CB : Type} (q : List (Nat × CB)) (k : Nat)
    (h : qMem q k = false) : qGet q k = none := by
  induction q with
  | nil => rfl
  | cons p rest ih =>
    simp only [qMem, List.any_cons, Bool.or_eq_false_iff] at h
    have h2 : qMem rest k = false := h.2
    show (List.find? (fun p => p.1 == k) (p :: rest)).map Prod.snd = none
    rw [List.find?_cons_of_neg _ (by simp [h.1])]
    exact ih h2

/-! ## C10 -/

/-- C10: `Sign.__eq__` holds exactly when the `line`, `signname` and
`bufnumber` fields are all equal, and equal `Sign`s have equal
`Sign.__hash__` values (for any interpreter hash functions on `str` and
`int`), so equal signs collapse in hash-based sets. -/
theorem sign_eq_iff_fields_and_hash_consistent (a b : Sign)
    (hashStr : String → Int) (hashInt : Int → Int) :
    (signEq a b = true ↔
      a.line = b.line ∧ a.signname = b.signname ∧ a.bufnumber = b.bufnumber)
    ∧ (signEq a b = true → signHash hashStr hashInt a = signHash hashStr hashInt b) := by
  refine ⟨?_, ?_⟩
  · cases a; cases b; simp [signEq, and_assoc]
  · intro h
    rw [(signEq_iff a b).mp h]

theorem sign_eq_iff_fields_and_hash_consistent_witness :
    (signEq { line := 3, signname := "LanguageClientError", bufnumber := 1 }
        { line := 3, signname := "LanguageClientError", bufnumber := 1 } = true ↔
      (3 : Int) = 3 ∧ "LanguageClientError" = "LanguageClientError" ∧ (1 : Int) = 1)
    ∧ (signEq { line := 3, signname := "LanguageClientError", bufnumber := 1 }
        { line := 3, signname := "LanguageClientError", bufnumber := 1 } = true →
      signHash (fun _ => 7) (fun n => n)
          { line := 3, signname := "LanguageClientError", bufnumber := 1 } =
        signHash (fun _ => 7) (fun n => n)
          { line := 3, signname := "LanguageClientError", bufnumber := 1 }) :=
  sign_eq_iff_fields_and_hash_consistent _ _ (fun _ => 7) (fun n => n)

/-! ## C6 -/

/-- C6: for an open document, `textDocument_didChange` with the stored
text is a no-op (same state, no notification); with a different text it
bumps the version by exactly one, stores the new text, and notifies with a
single full-text change event equal to the new text; a fresh document has
version 1, so one differing change yields version 2. -/
theorem didChange_version_and_payload (uri languageId text newText : String)
    (now : Nat) (doc : TextDocumentItem) :
    (textDocument_didChange doc doc.text = (doc, none))
    ∧ (newText ≠ doc.text →
        textDocument_didChange doc newText =
          ({ doc with text := newText, version := doc.version + 1, dirty := false },
            some { uri := doc.uri, version := doc.version + 1,
                   contentChanges := [{ text := newText }] }))
    ∧ (TextDocumentItem.init uri languageId text now).version = 1
    ∧ (newText ≠ text →
        textDocument_didChange (TextDocumentItem.init uri languageId text now) newText =
          ({ uri := uri, languageId := languageId, version := 2, text := newText,
             last_update := now, dirty := false },
            some { uri := uri, version := 2, contentChanges := [{ text := newText }] })) := by
  refine ⟨?_, ?_, rfl, ?_⟩
  · simp [textDocument_didChange]
  · intro h
    simp [textDocument_didChange, h, TextDocumentItem.change,
      TextDocumentItem.incVersion, TextDocumentItem.commit_change]
  · intro h
    simp [textDocument_didChange, TextDocumentItem.change,
      TextDocumentItem.incVersion, TextDocumentItem.commit_change,
      TextDocumentItem.init, h]

theorem didChange_version_and_payload_witness :
    (textDocument_didChange
        (TextDocumentItem.init "file:///tmp/a.rs" "rust" "fn a()\x7b\x7d" 0)
        "fn b()\x7b\x7d" =
      ({ uri := "file:///tmp/a.rs", languageId := "rust", version := 2,
         text := "fn b()\x7b\x7d", last_update := 0, dirty := false },
        some { uri := "file:///tmp/a.rs", version := 2,
               contentChanges := [{ text := "fn b()\x7b\x7d" }] })) :=
  (didChange_version_and_payload "file:///tmp/a.rs" "rust" "fn a()\x7b\x7d"
    "fn b()\x7b\x7d" 0
    (TextDocumentItem.init "file:///tmp/a.rs" "rust" "fn a()\x7b\x7d" 0)).2.2.2
    (by decide)

/-! ## C1

Blocking calls (`cbs=None`) never enter `self.queue`; only callback-style
calls do.  A response whose id is not in the queue is routed to the single
shared `self.result` slot, whatever its id.  So the claimed per-id
resolution holds for callback-style calls but fails for blocking calls:
the counterexample below issues two blocking calls A (id 0) and B (id 1),
shows neither id has any pending entry, and shows B's early response lands
in the shared slot, where the wakeup/consume step — run by whichever
blocked caller the scheduler wakes, A included — returns B's result; A's
own later response is routed to the very same slot. -/

/-- C1 (counterexample to the claim as stated): after blocking call A
(`id 0`) and blocking call B (`id 1`), there is no id-keyed pending state
at all (`queue = []`), and delivering B's response first stores B's result
in the shared sync slot, where the consume step of any woken blocking
caller (A included) obtains it; A's later response goes to the same shared
slot rather than to any state keyed by id 0. -/
theorem blocking_calls_not_id_keyed_counterexample :
    ((RPC.call ((RPC.call (RPCState.init Unit) "textDocument/hover" Json.null none).1)
        "textDocument/definition" Json.null none).1).queue = []
    ∧ (RPC.handle
        ((RPC.call ((RPC.call (RPCState.init Unit) "textDocument/hover" Json.null none).1)
          "textDocument/definition" Json.null none).1)
        (resultMsg 1 (Json.str "B"))).2 = .syncSetResult (Json.str "B")
    ∧ (RPC.syncFinish
        (RPC.handle
          ((RPC.call ((RPC.call (RPCState.init Unit) "textDocument/hover" Json.null none).1)
            "textDocument/definition" Json.null none).1)
          (resultMsg 1 (Json.str "B"))).1).1 = some (Json.str "B")
    ∧ (RPC.handle
        ((RPC.call ((RPC.call (RPCState.init Unit) "textDocument/hover" Json.null none).1)
          "textDocument/definition" Json.null none).1)
        (resultMsg 0 (Json.str "A"))).2 = .syncSetResult (Json.str "A") := by
  exact ⟨rfl, rfl, rfl, rfl⟩

/-- C1 (amended): for two overlapping callback-style calls A then B on one
RPC instance, delivering B's response first invokes B's result callback
with B's result, removes only B's queue entry, and leaves A's entry
intact; A's own later response then invokes A's callback — async
resolution is keyed strictly by id. -/
theorem out_of_order_async_resolution {CB : Type} (cbA cbB : CB)
    (mA mB : String) (pA pB rA rB : Json) :
    (RPC.call (RPCState.init CB) mA pA (some cbA)).2.1 = 0
    ∧ (RPC.call ((RPC.call (RPCState.init CB) mA pA (some cbA)).1) mB pB (some cbB)).2.1 = 1
    ∧ RPC.handle
        ((RPC.call ((RPC.call (RPCState.init CB) mA pA (some cbA)).1) mB pB (some cbB)).1)
        (resultMsg 1 rB) =
      ({ mid := 2, queue := [(0, cbA)], result := Json.null }, .calledResultCb cbB rB)
    ∧ RPC.handle ({ mid := 2, queue := [(0, cbA)], result := Json.null } : RPCState CB)
        (resultMsg 0 rA) =
      ({ mid := 2, queue := [], result := Json.null }, .calledResultCb cbA rA) :=
  ⟨rfl, rfl, rfl, rfl⟩

/-! ## C3

On the sync (blocking) path an error response does not raise: `handle`
logs the error and sets the shared slot to the Python list `[]`, which the
blocked caller then returns.  (Only the async path delivers the error to
an error callback.) -/

/-- C3 (counterexample to the claim as stated): a blocking call (id 0,
never queued) whose response carries an `error` makes `handle` log the
error and set the shared slot to `[]`; the woken caller's consume step
returns that empty list — a non-error sentinel in place of the structured
error, with no raised failure anywhere on this path. -/
theorem blocking_error_yields_empty_list_counterexample :
    (RPC.handle ((RPC.call (RPCState.init Unit) "initialize" (Json.obj .nil) none).1)
        (errorMsg 0 (Json.obj (.cons "code" (Json.num (-32601))
          (.cons "message" (Json.str "method not found") .nil))))).2 =
      .syncErrorLogged (Json.obj (.cons "code" (Json.num (-32601))
        (.cons "message" (Json.str "method not found") .nil)))
    ∧ (RPC.handle ((RPC.call (RPCState.init Unit) "initialize" (Json.obj .nil) none).1)
        (errorMsg 0 (Json.obj (.cons "code" (Json.num (-32601))
          (.cons "message" (Json.str "method not found") .nil))))).1.result =
      Json.arr .nil
    ∧ (RPC.syncFinish
        (RPC.handle ((RPC.call (RPCState.init Unit) "initialize" (Json.obj .nil) none).1)
          (errorMsg 0 (Json.obj (.cons "code" (Json.num (-32601))
            (.cons "message" (Json.str "method not found") .nil))))).1).1 =
      some (Json.arr .nil) :=
  ⟨rfl, rfl, rfl⟩

/-- C3 (amended): for every state in which the response id has no queue
entry — which is always the case for a blocking call, since `RPC.call`
with `cbs=None` registers nothing — an error response is logged, the
shared slot is set to the empty list, and the blocking caller's consume
step returns `[]`; the structured error is not delivered and nothing is
raised. -/
theorem blocking_error_response_behavior {CB : Type} (s : RPCState CB)
    (mid : Nat) (e : Json) (h : qMem s.queue mid = false) :
    RPC.handle s (errorMsg mid e) =
      ({ s with result := Json.arr .nil }, .syncErrorLogged e)
    ∧ (RPC.syncFinish ({ s with result := Json.arr .nil } : RPCState CB)).1 =
      some (Json.arr .nil) := by
  constructor
  · have hq : qGet s.queue mid = none := qGet_eq_none_of_not_mem _ _ h
    simp [RPC.handle, errorMsg, WireId.coerce, hq]
  · simp [RPC.syncFinish]

theorem blocking_error_response_behavior_witness :
    (RPC.handle (RPCState.init Unit) (errorMsg 0 Json.null) =
      ({ mid := 0, queue := [], result := Json.arr .nil }, .syncErrorLogged Json.null))
    ∧ (RPC.syncFinish ({ mid := 0, queue := [], result := Json.arr .nil } : RPCState Unit)).1 =
      some (Json.arr .nil) :=
  blocking_error_response_behavior (RPCState.init Unit) 0 Json.null (by decide)

/-! ## C4

A response whose id is absent from `queue` is *not* dropped: `handle`
treats it as the reply to a blocking call, stores it in the shared slot
(`[]` plus an error log for error responses) and fires `cv.notify()`,
waking any blocking caller.  No warning is produced on this path. -/

/-- C4 (counterexample to the claim as stated): with an empty pending
table, a response with unknown id 5 changes the waiter state — the shared
result slot is overwritten and the condition variable notified
(`syncSetResult`), ready to wake a blocking caller — instead of being
dropped with a warning. -/
theorem unknown_id_response_not_dropped_counterexample :
    RPC.handle (RPCState.init Unit) (resultMsg 5 (Json.str "late")) =
      ({ mid := 0, queue := [], result := Json.str "late" },
        .syncSetResult (Json.str "late")) :=
  rfl

/-- C4 (amended): a response whose id is absent from the pending table is
routed to the sync-call path: the shared result slot is set (to the
result, or to `[]` with an error log for error responses) and the
condition variable is notified; the pending table itself is unchanged and
no callback is invoked. -/
theorem absent_id_response_sync_path {CB : Type} (s : RPCState CB)
    (mid : Nat) (r e : Json) (h : qMem s.queue mid = false) :
    RPC.handle s (resultMsg mid r) = ({ s with result := r }, .syncSetResult r)
    ∧ RPC.handle s (errorMsg mid e) =
      ({ s with result := Json.arr .nil }, .syncErrorLogged e)
    ∧ (RPC.handle s (resultMsg mid r)).1.queue = s.queue := by
  have hq : qGet s.queue mid = none := qGet_eq_none_of_not_mem _ _ h
  refine ⟨?_, ?_, ?_⟩
  · simp [RPC.handle, resultMsg, WireId.coerce, hq]
  · simp [RPC.handle, errorMsg, WireId.coerce, hq]
  · simp [RPC.handle, resultMsg, WireId.coerce, hq]

theorem absent_id_response_sync_path_witness :
    (RPC.handle (RPCState.init Unit) (resultMsg 5 Json.null) =
      ({ mid := 0, queue := [], result := Json.null }, .syncSetResult Json.null))
    ∧ (RPC.handle (RPCState.init Unit) (errorMsg 5 Json.null) =
      ({ mid := 0, queue := [], result := Json.arr .nil }, .syncErrorLogged Json.null))
    ∧ (RPC.handle (RPCState.init Unit) (resultMsg 5 Json.null)).1.queue =
      (RPCState.init Unit).queue :=
  absent_id_response_sync_path (RPCState.init Unit) 5 Json.null Json.null (by decide)

/-! ## C2

`handle_request_and_notify` is the `onRequest` target of every `RPC`
instance.  When `hasattr` fails it only logs
`"no handler implemented for " + method`; no branch of the function (and
no constructor of its effect type) writes a response back to the server,
so a server-initiated request with an unregistered method gets no
method-not-found reply — it is silently dropped apart from the log
line. -/

/-- C2 (the code at the failing input): the engine routes a server request
for the unregistered method `"foobar/baz"` to `handle_request_and_notify`,
which merely logs a warning; no reply of any kind (in particular no
method-not-found error response) is produced. -/
theorem unhandled_request_only_warns (hasattr : String → Bool)
    (h : hasattr "foobar_baz" = false) :
    (RPC.handle (RPCState.init Unit)
        { method := some "foobar/baz", id := some (.int 7),
          params := some (Json.obj .nil) }).2 =
      .onRequest { method := some "foobar/baz", id := some (.int 7),
                   params := some (Json.obj .nil) }
    ∧ handle_request_and_notify hasattr
        { method := some "foobar/baz", id := some (.int 7),
          params := some (Json.obj .nil) } =
      .warnNoHandler "no handler implemented for foobar_baz" := by
  constructor
  · rfl
  · have hrepl : replaceSlashUnderscore "foobar/baz" = "foobar_baz" := rfl
    simp [handle_request_and_notify, hrepl, h]

theorem unhandled_request_only_warns_witness :
    ((RPC.handle (RPCState.init Unit)
        { method := some "foobar/baz", id := some (.int 7),
          params := some (Json.obj .nil) }).2 =
      .onRequest { method := some "foobar/baz", id := some (.int 7),
                   params := some (Json.obj .nil) })
    ∧ handle_request_and_notify (fun _ => false)
        { method := some "foobar/baz", id := some (.int 7),
          params := some (Json.obj .nil) } =
      .warnNoHandler "no handler implemented for foobar_baz" :=
  unhandled_request_only_warns (fun _ => false) rfl

/-! ## C9 -/

theorem qMem_eq_false_iff {CB : Type} (q : List (Nat × CB)) (k : Nat) :
    qMem q k = false ↔ k ∉ q.map Prod.fst := by
  rw [← qMem_iff_mem_keys]
  cases h : qMem q k <;> simp [h]

theorem qSet_keys_of_not_mem {CB : Type} (q : List (Nat × CB)) (k : Nat) (v : CB)
    (h : qMem q k = false) :
    (qSet q k v).map Prod.fst = q.map Prod.fst ++ [k] := by
  simp [qSet, h]

theorem handle_mid_eq_and_keys_sublist {CB : Type} (s : RPCState CB) (m : WireMsg) :
    (RPC.handle s m).1.mid = s.mid
    ∧ ((RPC.handle s m).1.queue.map Prod.fst).Sublist (s.queue.map Prod.fst) := by
  have hfilter : ∀ (k : Nat),
      ((qDel s.queue k).map Prod.fst).Sublist (s.queue.map Prod.fst) := by
    intro k
    exact (List.filter_sublist s.queue).map Prod.fst
  unfold RPC.handle
  dsimp only
  repeat' split
  all_goals exact ⟨rfl, by first | exact List.Sublist.refl _ | exact hfilter _⟩

theorem execOps_invariant {CB : Type} (ops : List (Op CB)) :
    ∀ s : RPCState CB,
      (s.queue.map Prod.fst).Nodup →
      (∀ k ∈ s.queue.map Prod.fst, k < s.mid) →
      (∀ id ∈ (execOps s ops).2, s.mid ≤ id)
      ∧ (execOps s ops).2.Pairwise (· < ·)
      ∧ ((execOps s ops).1.queue.map Prod.fst).Nodup
      ∧ (∀ k ∈ (execOps s ops).1.queue.map Prod.fst, k < (execOps s ops).1.mid) := by
  induction ops with
  | nil =>
    intro s h1 h2
    exact ⟨by simp [execOps], by simp [execOps], by simpa [execOps] using h1,
      by simpa [execOps] using h2⟩
  | cons op rest ih =>
    intro s h1 h2
    cases op with
    | callAsync method params cbs =>
      have hmemf : qMem s.queue s.mid = false := by
        rw [qMem_eq_false_iff]
        intro hmem
        exact absurd (h2 _ hmem) (lt_irrefl _)
      have hkeys : ((RPC.call s method params (some cbs)).1.queue.map Prod.fst) =
          s.queue.map Prod.fst ++ [s.mid] := by
        simpa [RPC.call, RPCState.incMid] using
          qSet_keys_of_not_mem s.queue s.mid cbs hmemf
      have hmid : (RPC.call s method params (some cbs)).1.mid = s.mid + 1 := rfl
      have h1' : ((RPC.call s method params (some cbs)).1.queue.map Prod.fst).Nodup := by
        rw [hkeys]
        refine List.Nodup.append h1 (by simp) ?_
        intro x hx hx'
        simp at hx'
        subst hx'
        exact absurd (h2 _ hx) (lt_irrefl _)
      have h2' : ∀ k ∈ (RPC.call s method params (some cbs)).1.queue.map Prod.fst,
          k < (RPC.call s method params (some cbs)).1.mid := by
        rw [hkeys, hmid]
        intro k hk
        rcases List.mem_append.mp hk with hk | hk
        · exact Nat.lt_succ_of_lt (h2 _ hk)
        · simp at hk; omega
      obtain ⟨ihA, ihB, ihC, ihD⟩ := ih _ h1' h2'
      refine ⟨?_, ?_, ?_, ?_⟩
      · intro id hid
        have halloc : (RPC.call s method params (some cbs)).2.1 = s.mid := rfl
        simp only [execOps, Op.run] at hid
        rcases List.mem_cons.mp hid with h | h
        · rw [halloc] at h
          omega
        · have := ihA id h
          rw [hmid] at this
          omega
      · simp only [execOps, Op.run]
        have halloc : (RPC.call s method params (some cbs)).2.1 = s.mid := rfl
        rw [halloc]
        refine List.Pairwise.cons ?_ ihB
        intro id hid
        have := ihA id hid
        rw [hmid] at this
        omega
      · simpa [execOps, Op.run] using ihC
      · simpa [execOps, Op.run] using ihD
    | callBlocking method params =>
      have h2' : ∀ k ∈ (RPC.call s method params none).1.queue.map Prod.fst,
          k < (RPC.call s method params none).1.mid := by
        intro k hk
        exact Nat.lt_succ_of_lt (h2 k hk)
      obtain ⟨ihA, ihB, ihC, ihD⟩ := ih (RPC.call s method params none).1 h1 h2'
      refine ⟨?_, ?_, ?_, ?_⟩
      · intro id hid
        have halloc : (RPC.call s method params none).2.1 = s.mid := rfl
        have hmid : (RPC.call s method params none).1.mid = s.mid + 1 := rfl
        simp only [execOps, Op.run] at hid
        rcases List.mem_cons.mp hid with h | h
        · rw [halloc] at h
          omega
        · have := ihA id h
          rw [hmid] at this
          omega
      · simp only [execOps, Op.run]
        have halloc : (RPC.call s method params none).2.1 = s.mid := rfl
        have hmid : (RPC.call s method params none).1.mid = s.mid + 1 := rfl
        rw [halloc]
        refine List.Pairwise.cons ?_ ihB
        intro id hid
        have := ihA id hid
        rw [hmid] at this
        omega
      · simpa [execOps, Op.run] using ihC
      · simpa [execOps, Op.run] using ihD
    | notify method params =>
      obtain ⟨ihA, ihB, ihC, ihD⟩ := ih s h1 h2
      exact ⟨by simpa [execOps, Op.run] using ihA, by simpa [execOps, Op.run] using ihB,
        by simpa [execOps, Op.run] using ihC, by simpa [execOps, Op.run] using ihD⟩
    | handleMsg m =>
      obtain ⟨hmid, hsub⟩ := handle_mid_eq_and_keys_sublist s m
      have h1' : (((RPC.handle s m).1.queue).map Prod.fst).Nodup := h1.sublist hsub
      have h2' : ∀ k ∈ ((RPC.handle s m).1.queue).map Prod.fst,
          k < (RPC.handle s m).1.mid := by
        intro k hk
        rw [hmid]
        exact h2 k (hsub.mem hk)
      obtain ⟨ihA, ihB, ihC, ihD⟩ := ih (RPC.handle s m).1 h1' h2'
      refine ⟨?_, ?_, ?_, ?_⟩
      · intro id hid
        have := ihA id (by simpa [execOps, Op.run] using hid)
        omega
      · simpa [execOps, Op.run] using ihB
      · simpa [execOps, Op.run] using ihC
      · simpa [execOps, Op.run] using ihD

/-- C9: over any finite sequence of invocations on one RPC instance, the
ids handed out by `incMid` are strictly increasing in issue order (hence
never reused), and at every point the pending-request table's keys are
pairwise distinct, so each id keys at most one entry. -/
theorem incMid_ids_increasing_and_queue_keys_unique {CB : Type}
    (ops : List (Op CB)) :
    (execOps (RPCState.init CB) ops).2.Pairwise (· < ·)
    ∧ (((execOps (RPCState.init CB) ops).1.queue).map Prod.fst).Nodup := by
  obtain ⟨_, hB, hC, _⟩ :=
    execOps_invariant ops (RPCState.init CB) (by simp [RPCState.init])
      (by simp [RPCState.init])
  exact ⟨hB, hC⟩

/-! ## C5

`json.dumps` with `ensure_ascii=True` (the default, used by both framer
versions) emits only ASCII code points, so the character count and the
UTF-8 byte count of the serialized payload coincide — which is why the
old framer's `len(content)` and the rplugin framer's
`len(content.encode('utf-8'))` both equal the byte length of their
payloads, including payloads whose pre-serialization text is
non-ASCII. -/

theorem hexDigitChar_ascii (n : Nat) : (hexDigitChar n).toNat < 128 := by
  unfold hexDigitChar List.getD
  cases h : hexDigits.get? n with
  | none => simp [h]
  | some c =>
    have hc : c ∈ hexDigits := List.get?_mem h
    simp [h]
    exact (by decide : ∀ y ∈ hexDigits, y.toNat < 128) c hc

theorem hex4_ascii (n : Nat) : AllAscii (hex4 n) := by
  intro c hc
  simp only [hex4, List.mem_cons] at hc
  rcases hc with rfl | rfl | rfl | rfl | hbad
  · exact hexDigitChar_ascii _
  · exact hexDigitChar_ascii _
  · exact hexDigitChar_ascii _
  · exact hexDigitChar_ascii _
  · exact absurd hbad (List.not_mem_nil c)

theorem natCharsAux_ascii (fuel n : Nat) : AllAscii (natCharsAux fuel n) := by
  induction fuel generalizing n with
  | zero =>
    intro c hc
    simp only [natCharsAux, List.mem_singleton] at hc
    subst hc
    exact hexDigitChar_ascii _
  | succ fuel ih =>
    intro c hc
    by_cases h : n < 10
    · simp only [natCharsAux, if_pos h, List.mem_singleton] at hc
      subst hc
      exact hexDigitChar_ascii _
    · simp only [natCharsAux, if_neg h, List.mem_append, List.mem_singleton] at hc
      rcases hc with hc | rfl
      · exact ih (n / 10) c hc
      · exact hexDigitChar_ascii _

theorem intChars_ascii (n : Int) : AllAscii (intChars n) := by
  intro c hc
  unfold intChars at hc
  split_ifs at hc
  · rcases List.mem_cons.mp hc with rfl | hc
    · decide
    · exact natCharsAux_ascii _ _ c hc
  · exact natCharsAux_ascii _ _ c hc

theorem escapeCharAscii_ascii (c : Char) : AllAscii (escapeCharAscii c) := by
  intro x hx
  unfold escapeCharAscii at hx
  split_ifs at hx with h1 h2 h3 h4 h5 h6 h7 h8 h9
  · exact (by decide : ∀ y ∈ (['\\', '\\'] : List Char), y.toNat < 128) x hx
  · exact (by decide : ∀ y ∈ (['\\', '"'] : List Char), y.toNat < 128) x hx
  · exact (by decide : ∀ y ∈ (['\\', 'b'] : List Char), y.toNat < 128) x hx
  · exact (by decide : ∀ y ∈ (['\\', 'f'] : List Char), y.toNat < 128) x hx
  · exact (by decide : ∀ y ∈ (['\\', 'n'] : List Char), y.toNat < 128) x hx
  · exact (by decide : ∀ y ∈ (['\\', 'r'] : List Char), y.toNat < 128) x hx
  · exact (by decide : ∀ y ∈ (['\\', 't'] : List Char), y.toNat < 128) x hx
  · have hxc : x = c := by simpa using hx
    subst hxc
    omega
  · simp only [List.mem_cons] at hx
    rcases hx with rfl | rfl | hx
    · decide
    · decide
    · exact hex4_ascii _ x hx
  · simp only [List.mem_append, List.mem_cons] at hx
    rcases hx with (rfl | rfl | hx) | (rfl | rfl | hx)
    · decide
    · decide
    · exact hex4_ascii _ x hx
    · decide
    · decide
    · exact hex4_ascii _ x hx

theorem encodeBasestringAscii_ascii (s : List Char) :
    AllAscii (encodeBasestringAscii s) := by
  intro x hx
  simp only [encodeBasestringAscii, List.mem_cons, List.mem_append,
    List.mem_singleton, List.mem_flatMap] at hx
  rcases hx with (rfl | ⟨c, _, hxc⟩) | rfl | hempty
  · decide
  · exact escapeCharAscii_ascii c x hxc
  · decide
  · simp at hempty

mutual
theorem dumpsVal_ascii (isep ksep : List Char)
    (hi : AllAscii isep) (hk : AllAscii ksep) :
    ∀ j : Json, AllAscii (dumpsVal isep ksep j)
  | .null => by
    intro c hc
    exact (by decide : ∀ y ∈ (['n', 'u', 'l', 'l'] : List Char), y.toNat < 128) c hc
  | .bool true => by
    intro c hc
    exact (by decide : ∀ y ∈ (['t', 'r', 'u', 'e'] : List Char), y.toNat < 128) c hc
  | .bool false => by
    intro c hc
    exact (by decide : ∀ y ∈ (['f', 'a', 'l', 's', 'e'] : List Char), y.toNat < 128) c hc
  | .num n => by
    intro c hc
    exact intChars_ascii n c hc
  | .str s => by
    intro c hc
    exact encodeBasestringAscii_ascii s.data c hc
  | .arr xs => by
    intro c hc
    simp only [dumpsVal, List.mem_cons, List.mem_append, List.mem_singleton] at hc
    rcases hc with (rfl | hc) | rfl | hempty
    · decide
    · exact dumpsArr_ascii isep ksep hi hk xs c hc
    · decide
    · simp at hempty
  | .obj fs => by
    intro c hc
    simp only [dumpsVal, List.mem_cons, List.mem_append, List.mem_singleton] at hc
    rcases hc with (rfl | hc) | rfl | hempty
    · decide
    · exact dumpsFields_ascii isep ksep hi hk fs c hc
    · decide
    · simp at hempty

theorem dumpsArr_ascii (isep ksep : List Char)
    (hi : AllAscii isep) (hk : AllAscii ksep) :
    ∀ xs : JsonList, AllAscii (dumpsArr isep ksep xs)
  | .nil => by
    intro c hc
    simp [dumpsArr] at hc
  | .cons x .nil => by
    intro c hc
    rw [dumpsArr] at hc
    exact dumpsVal_ascii isep ksep hi hk x c hc
  | .cons x (.cons y tl) => by
    intro c hc
    rw [dumpsArr] at hc
    simp only [List.mem_append] at hc
    rcases hc with (hc | hc) | hc
    · exact dumpsVal_ascii isep ksep hi hk x c hc
    · exact hi c hc
    · exact dumpsArr_ascii isep ksep hi hk (.cons y tl) c hc

theorem dumpsFields_ascii (isep ksep : List Char)
    (hi : AllAscii isep) (hk : AllAscii ksep) :
    ∀ fs : JsonObj, AllAscii (dumpsFields isep ksep fs)
  | .nil => by
    intro c hc
    simp [dumpsFields] at hc
  | .cons k v .nil => by
    intro c hc
    rw [dumpsFields] at hc
    simp only [List.mem_append] at hc
    rcases hc with (hc | hc) | hc
    · exact encodeBasestringAscii_ascii k.data c hc
    · exact hk c hc
    · exact dumpsVal_ascii isep ksep hi hk v c hc
  | .cons k v (.cons k' v' tl) => by
    intro c hc
    rw [dumpsFields] at hc
    simp only [List.mem_append] at hc
    rcases hc with (((hc | hc) | hc) | hc) | hc
    · exact encodeBasestringAscii_ascii k.data c hc
    · exact hk c hc
    · exact dumpsVal_ascii isep ksep hi hk v c hc
    · exact hi c hc
    · exact dumpsFields_ascii isep ksep hi hk (.cons k' v' tl) c hc
end

theorem pyUtf8Len_eq_length_of_ascii (s : List Char) (h : AllAscii s) :
    pyUtf8Len s = s.length := by
  induction s with
  | nil => rfl
  | cons c cs ih =>
    have hc : c.toNat < 0x80 := h c (by simp)
    have hcs : AllAscii cs := fun x hx => h x (by simp [hx])
    simp only [pyUtf8Len, List.map_cons, List.sum_cons, List.length_cons] at *
    rw [ih hcs]
    simp [charUtf8Len, hc]
    omega

/-- C5: for every JSON payload, the `Content-Length` value written by the
rplugin framer `RPC.message` equals the UTF-8 byte length of its
serialized payload, and the value written by the old `RPC.call` framer
(`len(content)`, a character count) also equals the UTF-8 byte length of
its serialized payload — serialized payloads are pure ASCII under
`ensure_ascii`, so byte and character counts agree even when the
pre-serialization payload contains non-ASCII characters. -/
theorem content_length_equals_utf8_byte_length (d : Json) :
    messageContentLength d = pyUtf8Len (dumpsCompact d)
    ∧ oldCallContentLength d = pyUtf8Len (dumpsDefault d) := by
  refine ⟨rfl, ?_⟩
  have h : AllAscii (dumpsDefault d) :=
    dumpsVal_ascii [',', ' '] [':', ' ']
      (by intro c hc; fin_cases hc <;> decide)
      (by intro c hc; fin_cases hc <;> decide) d
  rw [oldCallContentLength, (pyUtf8Len_eq_length_of_ascii _ h)]

/-! ## C7 and C8

`SequenceMatcher` on two element-wise equal sequences always reports one
all-covering `equal` opcode: the dynamic program's running best stays on
the diagonal (an off-diagonal chain ending at column `j` is never longer
than the diagonal chain ending there, and by the time it is scanned an at
least as long diagonal chain has already been recorded), and the two
non-junk extension loops then stretch the diagonal best to the full
range — even when the autojunk heuristic has purged popular elements from
`b2j`.  Hence `get_command_update_signs S S` emits no commands. -/

theorem signEq_refl (s : Sign) : signEq s s = true := (signEq_iff s s).mpr rfl

theorem mem_positions {b : List Sign} {e : Sign} {j : Nat} :
    j ∈ positions b e ↔ j < b.length ∧ b.getD j sign0 = e := by
  simp [positions, List.mem_filter, List.mem_range, signEq_iff]

theorem positions_pairwise (b : List Sign) (e : Sign) :
    (positions b e).Pairwise (· < ·) :=
  (List.pairwise_lt_range b.length).sublist (List.filter_sublist _)

theorem mem_b2jGet {b : List Sign} {e : Sign} {j : Nat} :
    j ∈ b2jGet b e ↔ isPopular b e = false ∧ j < b.length ∧ b.getD j sign0 = e := by
  unfold b2jGet
  split
  · rename_i hpop
    simp [hpop]
  · rename_i hpop
    simp only [Bool.not_eq_true] at hpop
    simp [hpop, mem_positions]

theorem b2jGet_pairwise (b : List Sign) (e : Sign) :
    (b2jGet b e).Pairwise (· < ·) := by
  unfold b2jGet
  split
  · exact List.Pairwise.nil
  · exact positions_pairwise b e

theorem chCond_symm {b : List Sign} {i j : Nat} (h : chCond b i j) : chCond b j i := by
  obtain ⟨hp, he⟩ := h
  exact ⟨he ▸ hp, he.symm⟩

theorem chCond_diag {b : List Sign} {i j : Nat} (h : chCond b i j) : chCond b i i :=
  ⟨h.1, rfl⟩

theorem selfChain_le_left (b : List Sign) : ∀ i j, selfChain b i j ≤ i + 1 := by
  intro i
  induction i with
  | zero =>
    intro j
    cases j <;> (unfold selfChain; split <;> omega)
  | succ i ih =>
    intro j
    cases j with
    | zero => unfold selfChain; split <;> omega
    | succ j =>
      unfold selfChain
      split
      · have := ih j; omega
      · omega

theorem selfChain_symm (b : List Sign) : ∀ i j, selfChain b i j = selfChain b j i := by
  intro i
  induction i with
  | zero =>
    intro j
    cases j with
    | zero => rfl
    | succ j =>
      unfold selfChain
      by_cases h : chCond b 0 (j + 1)
      · rw [if_pos h, if_pos (chCond_symm h)]
      · rw [if_neg h, if_neg (fun h' => h (chCond_symm h'))]
  | succ i ih =>
    intro j
    cases j with
    | zero =>
      unfold selfChain
      by_cases h : chCond b (i + 1) 0
      · rw [if_pos h, if_pos (chCond_symm h)]
      · rw [if_neg h, if_neg (fun h' => h (chCond_symm h'))]
    | succ j =>
      unfold selfChain
      by_cases h : chCond b (i + 1) (j + 1)
      · rw [if_pos h, if_pos (chCond_symm h), ih j]
      · rw [if_neg h, if_neg (fun h' => h (chCond_symm h'))]

theorem selfChain_le_diag (b : List Sign) : ∀ i j, selfChain b i j ≤ selfChain b i i := by
  intro i
  induction i with
  | zero =>
    intro j
    cases j with
    | zero => exact le_refl _
    | succ j =>
      unfold selfChain
      by_cases h : chCond b 0 (j + 1)
      · rw [if_pos h, if_pos (chCond_diag h)]
      · rw [if_neg h]; omega
  | succ i ih =>
    intro j
    cases j with
    | zero =>
      unfold selfChain
      by_cases h : chCond b (i + 1) 0
      · rw [if_pos h, if_pos (chCond_diag h)]
        omega
      · rw [if_neg h]; omega
    | succ j =>
      unfold selfChain
      by_cases h : chCond b (i + 1) (j + 1)
      · rw [if_pos h, if_pos (chCond_diag h)]
        have := ih j
        omega
      · rw [if_neg h]; omega

theorem selfChain_eq_zero {b : List Sign} {i j : Nat} (h : ¬chCond b i j) :
    selfChain b i j = 0 := by
  rcases i with _ | i <;> rcases j with _ | j <;> (unfold selfChain; rw [if_neg h])

theorem selfChain_formula {b : List Sign} {m j : Nat} (hc : chCond b m j) :
    selfChain b m j = (if j = 0 then 0 else prevCh b m (j - 1)) + 1 := by
  rcases m with _ | m <;> rcases j with _ | j
  · unfold selfChain
    rw [if_pos hc]
    simp
  · unfold selfChain prevCh
    rw [if_pos hc]
    simp
  · unfold selfChain
    rw [if_pos hc]
    simp
  · unfold selfChain prevCh
    rw [if_pos hc]
    simp

theorem innerBest_size_lower (b : List Sign) (m : Nat) (best₀ : BestMatch) :
    selfChain b m m ≤ (innerBest b m best₀).bestsize
    ∧ best₀.bestsize ≤ (innerBest b m best₀).bestsize := by
  unfold innerBest
  split
  · dsimp only
    constructor <;> omega
  · constructor <;> omega

/-- One step of the self-comparison inner loop: the running best is
`best₀` until the diagonal column `m` is scanned, `innerBest b m best₀`
afterwards, and every processed column `j` records the chain length
`selfChain b m j` in `newj2len`. -/
theorem innerLoop_self_spec (b : List Sign) (m : Nat) (hm : m < b.length)
    (j2lenOld : Nat → Nat) (hold : ∀ x, x < b.length → j2lenOld x = prevCh b m x)
    (best₀ : BestMatch)
    (hmax : ∀ i' j', i' < m → j' < b.length → selfChain b i' j' ≤ best₀.bestsize) :
    ∀ (js : List Nat) (g : Nat → Nat) (best : BestMatch),
      js.Pairwise (· < ·) →
      (∀ j ∈ js, j < b.length ∧ chCond b m j) →
      ((m ∈ js ∧ best = best₀) ∨ ((∀ j ∈ js, m < j) ∧ best = innerBest b m best₀)) →
      (innerLoop 0 b.length m j2lenOld js g best).2 = innerBest b m best₀
      ∧ ∀ x, (innerLoop 0 b.length m j2lenOld js g best).1 x =
          if x ∈ js then selfChain b m x else g x := by
  intro js
  induction js with
  | nil =>
    intro g best _ _ hcase
    rcases hcase with ⟨hmem, _⟩ | ⟨_, rfl⟩
    · exact absurd hmem (List.not_mem_nil m)
    · exact ⟨rfl, fun x => by simp [innerLoop]⟩
  | cons j rest ih =>
    intro g best hpair hmem hcase
    obtain ⟨hjlt, hjcond⟩ := hmem j (List.mem_cons_self j rest)
    have hjrest : j ∉ rest := fun hmemr =>
      lt_irrefl j (List.rel_of_pairwise_cons hpair hmemr)
    have hk : (if j = 0 then 0 else j2lenOld (j - 1)) + 1 = selfChain b m j := by
      rcases j with _ | j'
      · simp [selfChain_formula hjcond]
      · rw [selfChain_formula hjcond]
        simp only [Nat.add_sub_cancel]
        rw [hold j' (by omega)]
    have step : innerLoop 0 b.length m j2lenOld (j :: rest) g best =
        innerLoop 0 b.length m j2lenOld rest
          (fun j' => if j' = j then selfChain b m j else g j')
          (if best.bestsize < selfChain b m j then
            ⟨m + 1 - selfChain b m j, j + 1 - selfChain b m j, selfChain b m j⟩
          else best) := by
      rw [innerLoop]
      rw [if_neg (Nat.not_lt_zero j), if_neg (by omega : ¬b.length ≤ j)]
      simp only [hk]
    have hcompose :
        ∀ (best' : BestMatch),
          ((m ∈ rest ∧ best' = best₀) ∨
            ((∀ x ∈ rest, m < x) ∧ best' = innerBest b m best₀)) →
          (innerLoop 0 b.length m j2lenOld rest
              (fun j' => if j' = j then selfChain b m j else g j') best').2 =
            innerBest b m best₀
          ∧ ∀ x, (innerLoop 0 b.length m j2lenOld rest
              (fun j' => if j' = j then selfChain b m j else g j') best').1 x =
              if x ∈ j :: rest then selfChain b m x else g x := by
      intro best' hcase'
      obtain ⟨ih1, ih2⟩ := ih (fun j' => if j' = j then selfChain b m j else g j') best'
        hpair.of_cons (fun x hx => hmem x (List.mem_cons_of_mem j hx)) hcase'
      refine ⟨ih1, fun x => ?_⟩
      rw [ih2 x]
      by_cases hx : x = j
      · subst hx
        simp [hjrest]
      · by_cases hxr : x ∈ rest
        · simp [hxr, hx]
        · simp [hxr, hx]
    rcases hcase with ⟨hmemA, rfl⟩ | ⟨hall, rfl⟩
    · by_cases hjm : j = m
      · subst hjm
        have hupdated :
            (if best.bestsize < selfChain b j j then
              (⟨j + 1 - selfChain b j j, j + 1 - selfChain b j j,
                selfChain b j j⟩ : BestMatch)
            else best) = innerBest b j best := rfl
        rw [step, hupdated]
        refine hcompose (innerBest b j best) (Or.inr ⟨?_, rfl⟩)
        intro x hx
        exact List.rel_of_pairwise_cons hpair hx
      · have hmrest : m ∈ rest := by
          rcases List.mem_cons.mp hmemA with h | h
          · exact absurd h.symm hjm
          · exact h
        have hjm' : j < m := List.rel_of_pairwise_cons hpair hmrest
        have hsmall : selfChain b m j ≤ best.bestsize := by
          calc selfChain b m j = selfChain b j m := selfChain_symm b m j
            _ ≤ selfChain b j j := selfChain_le_diag b j m
            _ ≤ best.bestsize := hmax j j hjm' hjlt
        rw [step, if_neg (by omega)]
        exact hcompose best (Or.inl ⟨hmrest, rfl⟩)
    · have hmj : m < j := hall j (List.mem_cons_self j rest)
      have hsmall : selfChain b m j ≤ (innerBest b m best₀).bestsize :=
        le_trans (selfChain_le_diag b m j) (innerBest_size_lower b m best₀).1
      rw [step, if_neg (by omega)]
      exact hcompose (innerBest b m best₀)
        (Or.inr ⟨fun x hx => hall x (List.mem_cons_of_mem j hx), rfl⟩)

/-- The self-comparison dynamic program keeps its best on the diagonal
and within range. -/
theorem dpLoop_self_spec (b : List Sign) :
    ∀ (cnt m : Nat) (j2len : Nat → Nat) (best₀ : BestMatch),
      m + cnt = b.length →
      (∀ x, x < b.length → j2len x = prevCh b m x) →
      best₀.besti = best₀.bestj →
      best₀.besti + best₀.bestsize ≤ b.length →
      (∀ i' j', i' < m → j' < b.length → selfChain b i' j' ≤ best₀.bestsize) →
      (dpLoop b b 0 b.length (List.range' m cnt) j2len best₀).besti =
        (dpLoop b b 0 b.length (List.range' m cnt) j2len best₀).bestj
      ∧ (dpLoop b b 0 b.length (List.range' m cnt) j2len best₀).besti +
          (dpLoop b b 0 b.length (List.range' m cnt) j2len best₀).bestsize ≤ b.length := by
  intro cnt
  induction cnt with
  | zero =>
    intro m j2len best₀ _ _ hdiag hrange _
    exact ⟨hdiag, hrange⟩
  | succ cnt ih =>
    intro m j2len best₀ hcnt hold hdiag hrange hmax
    have hm : m < b.length := by omega
    have hrange' : List.range' m (cnt + 1) = m :: List.range' (m + 1) cnt := by
      simpa using List.range'_succ m cnt 1
    rw [hrange']
    rcases he : innerLoop 0 b.length m j2len (b2jGet b (b.getD m sign0)) (fun _ => 0) best₀
      with ⟨nj, nb⟩
    have hjs_pair : (b2jGet b (b.getD m sign0)).Pairwise (· < ·) :=
      b2jGet_pairwise b (b.getD m sign0)
    have hjs_mem : ∀ j ∈ b2jGet b (b.getD m sign0), j < b.length ∧ chCond b m j := by
      intro j hj
      obtain ⟨hp, hlt, heq⟩ := mem_b2jGet.mp hj
      exact ⟨hlt, hp, heq⟩
    have hentry : (m ∈ b2jGet b (b.getD m sign0) ∧ best₀ = best₀) ∨
        ((∀ j ∈ b2jGet b (b.getD m sign0), m < j) ∧ best₀ = innerBest b m best₀) := by
      by_cases hpop : isPopular b (b.getD m sign0) = false
      · exact Or.inl ⟨mem_b2jGet.mpr ⟨hpop, hm, rfl⟩, rfl⟩
      · have hpop' : isPopular b (b.getD m sign0) = true := by
          cases h : isPopular b (b.getD m sign0)
          · exact absurd h hpop
          · rfl
        have hjs : b2jGet b (b.getD m sign0) = [] := by
          unfold b2jGet
          rw [if_pos hpop']
        have hnocond : ¬chCond b m m := fun hc => by
          rw [hc.1] at hpop'
          exact Bool.false_ne_true hpop'
        have hzero : selfChain b m m = 0 := selfChain_eq_zero hnocond
        have : innerBest b m best₀ = best₀ := by
          unfold innerBest
          rw [hzero, if_neg (by omega)]
        rw [hjs, this]
        exact Or.inr ⟨by simp, rfl⟩
    obtain ⟨hb, hj⟩ := innerLoop_self_spec b m hm j2len hold best₀ hmax
      (b2jGet b (b.getD m sign0)) (fun _ => 0) best₀ hjs_pair hjs_mem hentry
    rw [he] at hb hj
    simp only at hb hj
    have hstep : dpLoop b b 0 b.length (m :: List.range' (m + 1) cnt) j2len best₀ =
        dpLoop b b 0 b.length (List.range' (m + 1) cnt) nj nb := by
      rw [dpLoop, he]
    rw [hstep]
    subst hb
    have hold' : ∀ x, x < b.length → nj x = prevCh b (m + 1) x := by
      intro x hx
      rw [hj x]
      show (if x ∈ b2jGet b (b.getD m sign0) then selfChain b m x else 0) = selfChain b m x
      split
      · rfl
      · rename_i hnx
        have : ¬chCond b m x := fun hc => hnx (mem_b2jGet.mpr ⟨hc.1, hx, hc.2⟩)
        exact (selfChain_eq_zero this).symm
    have hdiag' : (innerBest b m best₀).besti = (innerBest b m best₀).bestj := by
      unfold innerBest
      split
      · rfl
      · exact hdiag
    have hrange'' : (innerBest b m best₀).besti + (innerBest b m best₀).bestsize ≤
        b.length := by
      unfold innerBest
      split
      · dsimp only
        have := selfChain_le_left b m m
        omega
      · exact hrange
    have hmax' : ∀ i' j', i' < m + 1 → j' < b.length →
        selfChain b i' j' ≤ (innerBest b m best₀).bestsize := by
      intro i' j' hi hj'
      rcases Nat.lt_succ_iff_lt_or_eq.mp hi with hi | rfl
      · exact le_trans (hmax i' j' hi hj') (innerBest_size_lower b m best₀).2
      · exact le_trans (selfChain_le_diag b i' j') (innerBest_size_lower b i' best₀).1
    exact ih (m + 1) nj (innerBest b m best₀) (by omega) hold' hdiag' hrange'' hmax'

/-- In the self-comparison the downward non-junk extension walks a
diagonal best all the way to the start (its fuel is exactly `besti`). -/
theorem extendLowerNonjunk_self_diag (b : List Sign) :
    ∀ d s, extendLowerNonjunk b b 0 0 d ⟨d, d, s⟩ = ⟨0, 0, s + d⟩ := by
  intro d
  induction d with
  | zero => intro s; rfl
  | succ d ih =>
    intro s
    rw [extendLowerNonjunk,
      if_pos ⟨Nat.succ_pos d, Nat.succ_pos d, rfl, signEq_refl _⟩]
    have : (⟨d + 1 - 1, d + 1 - 1, s + 1⟩ : BestMatch) = ⟨d, d, s + 1⟩ := rfl
    rw [this, ih (s + 1)]
    congr 1
    omega

/-- In the self-comparison the upward non-junk extension grows a
best anchored at the origin to the whole sequence. -/
theorem extendUpperNonjunk_self_diag (b : List Sign) :
    ∀ fuel t, t + fuel = b.length →
      extendUpperNonjunk b b b.length b.length fuel ⟨0, 0, t⟩ = ⟨0, 0, b.length⟩ := by
  intro fuel
  induction fuel with
  | zero =>
    intro t ht
    have : t = b.length := by omega
    subst this
    rfl
  | succ fuel ih =>
    intro t ht
    rw [extendUpperNonjunk,
      if_pos ⟨by dsimp only; omega, by dsimp only; omega, rfl, signEq_refl _⟩]
    exact ih (t + 1) (by omega)

/-- With `isjunk=None` the junk set is empty, so the junk extension
loops never move. -/
theorem extendLowerJunk_id (b : List Sign) (alo blo : Nat) :
    ∀ fuel best, extendLowerJunk b b alo blo fuel best = best := by
  intro fuel best
  cases fuel with
  | zero => rfl
  | succ fuel =>
    rw [extendLowerJunk, if_neg]
    rintro ⟨_, _, hj, _⟩
    simp [bjunkNone] at hj

theorem extendUpperJunk_id (b : List Sign) (ahi bhi : Nat) :
    ∀ fuel best, extendUpperJunk b b ahi bhi fuel best = best := by
  intro fuel best
  cases fuel with
  | zero => rfl
  | succ fuel =>
    rw [extendUpperJunk, if_neg]
    rintro ⟨_, _, hj, _⟩
    simp [bjunkNone] at hj

/-- `find_longest_match` over the full ranges of two identical sequences
returns the whole-sequence match `(0, 0, n)`. -/
theorem findLongestMatch_self (b : List Sign) :
    findLongestMatch b b 0 b.length 0 b.length = ⟨0, 0, b.length⟩ := by
  obtain ⟨hdiag, hrange⟩ := dpLoop_self_spec b (b.length - 0) 0 (fun _ => 0) ⟨0, 0, 0⟩
    (by omega) (fun x _ => rfl) rfl (by dsimp only; omega)
    (fun i' j' hi _ => absurd hi (Nat.not_lt_zero i'))
  unfold findLongestMatch
  dsimp only
  rcases hres : dpLoop b b 0 b.length (List.range' 0 (b.length - 0)) (fun _ => 0) ⟨0, 0, 0⟩
    with ⟨bi, bj, bs⟩
  rw [hres] at hdiag hrange
  simp only at hdiag hrange
  subst hdiag
  dsimp only
  rw [extendLowerNonjunk_self_diag b bi bs]
  dsimp only
  rw [extendUpperNonjunk_self_diag b (b.length - (0 + (bs + bi))) (bs + bi) (by omega)]
  dsimp only
  rw [extendLowerJunk_id b 0 0]
  rw [extendUpperJunk_id b b.length b.length]

theorem getMatchingBlocks_self (b : List Sign) :
    getMatchingBlocks b b =
      if b.length = 0 then [(0, 0, 0)]
      else [(0, 0, b.length), (b.length, b.length, 0)] := by
  unfold getMatchingBlocks
  dsimp only
  rw [matchingBlocksAux, findLongestMatch_self b]
  dsimp only
  by_cases hn : b.length = 0
  · rw [if_pos hn, if_pos hn]
    simp [collapseAdjacent, hn]
  · rw [if_neg hn, if_neg hn]
    rw [if_neg (by omega : ¬((0 : Nat) < 0 ∧ (0 : Nat) < 0))]
    rw [if_neg (by omega : ¬(0 + b.length < b.length ∧ 0 + b.length < b.length))]
    simp [collapseAdjacent, hn]

theorem getOpcodes_self (b : List Sign) :
    getOpcodes b b =
      if b.length = 0 then [] else [("equal", 0, b.length, 0, b.length)] := by
  unfold getOpcodes
  rw [getMatchingBlocks_self b]
  by_cases hn : b.length = 0
  · rw [if_pos hn, if_pos hn]
    simp [opcodesLoop]
  · rw [if_neg hn, if_neg hn]
    simp [opcodesLoop, hn]

/-- C7: reconciliation is idempotent — running `get_command_update_signs`
on a previous-sign sequence that is element-wise `Sign`-equal to the next
sequence yields the bare `"echo"` script, emitting no `sign place` and no
`sign unplace` command. -/
theorem update_signs_self_is_noop (signs next_signs : List Sign)
    (hlen : signs.length = next_signs.length)
    (helt : ∀ (i : Nat) (h1 : i < signs.length) (h2 : i < next_signs.length),
      signEq (signs.get ⟨i, h1⟩) (next_signs.get ⟨i, h2⟩) = true) :
    get_command_update_signs signs next_signs = "echo".data := by
  have heq : signs = next_signs :=
    List.ext_get hlen fun i h1 h2 => (signEq_iff _ _).mp (helt i h1 h2)
  subst heq
  unfold get_command_update_signs
  rw [getOpcodes_self signs]
  by_cases hn : signs.length = 0
  · rw [if_pos hn]
    simp
  · rw [if_neg hn]
    have hcmd : opcodeCommands signs signs
        ("equal", 0, signs.length, 0, signs.length) = [] := by
      unfold opcodeCommands
      dsimp only
      rw [if_neg (by decide), if_neg (by decide), if_neg (by decide)]
    simp [hcmd]

theorem update_signs_self_is_noop_witness :
    get_command_update_signs
        [{ line := 2, signname := "LanguageClientError", bufnumber := 1 }]
        [{ line := 2, signname := "LanguageClientError", bufnumber := 1 }] =
      "echo".data :=
  update_signs_self_is_noop _ _ rfl (fun i h1 h2 => by
    have hi : i < 1 := h1
    have hz : i = 0 := by omega
    subst hz
    exact signEq_refl _)

/-- C8: with previous signs at lines 1 and 3 and next signs at lines 1, 2
and 3 (same sign name and buffer), the update script adds exactly the
line-2 sign and removes nothing. -/
theorem update_signs_minimal_insertion :
    get_command_update_signs
        [{ line := 1, signname := "LanguageClientError", bufnumber := 1 },
         { line := 3, signname := "LanguageClientError", bufnumber := 1 }]
        [{ line := 1, signname := "LanguageClientError", bufnumber := 1 },
         { line := 2, signname := "LanguageClientError", bufnumber := 1 },
         { line := 3, signname := "LanguageClientError", bufnumber := 1 }] =
      "echo".data ++ get_command_add_sign
        { line := 2, signname := "LanguageClientError", bufnumber := 1 } := by
  decide

end LCNV
